import Mathlib

/-!
Verification development for the `ui-proj` orchestration core.

This file gives a shallow embedding of the two core source files

  * `src/app/storage/context_store.py` (in-memory branch, `use_redis = false`,
    which is the default: `os.getenv("USE_REDIS", "false")`), and
  * `src/app/orchestrator/agent_orchestrator.py`,

and proves or refutes the spec claims about them.

Modelling conventions:

  * Python dicts are association lists `List (String × τ)`; the store keeps
    the invariant that keys are unique (Python dicts cannot hold duplicate
    keys), which shows up as `NodupKeys` hypotheses where needed.
  * `time.time()` is an explicit `now : Int` argument threaded to each store
    operation (the code calls `time.time()` at most a few microseconds apart
    inside one operation; all calls inside one operation are modelled as the
    same instant).
  * Python exceptions are `Except PyErr`.  A CPython call
    `f(**base, k=v)` raises `TypeError: f() got multiple values for keyword
    argument k` whenever `k` is already a key of `base`; this is modelled by
    `kwUpdate`, which consults the (fixed) field-key list of the pydantic
    model `AgentState` produced by `state.dict()`.
-/

set_option maxHeartbeats 1000000

/-- JSON-like values stored in contexts (Python objects in the dicts). -/
inductive Val where
  | str : String → Val
  | num : Int → Val
  | bool : Bool → Val
  | dict : List (String × Val) → Val
  | nil : Val

/-- A Python dict with `String` keys and `Val` values, as an association list. -/
abbrev Dict := List (String × Val)

/-- First-match lookup in an association list (Python `d[k]` / `d.get(k)`;
Python dict keys are unique so first match is the match). -/
def Assoc.lookup {τ : Type} : List (String × τ) → String → Option τ
  | [], _ => none
  | kv :: rest, k => if kv.1 = k then some kv.2 else Assoc.lookup rest k

/-- Python `k in d`. -/
def Assoc.containsKey {τ : Type} (l : List (String × τ)) (k : String) : Bool :=
  (Assoc.lookup l k).isSome

/-- Python `d[k] = v`: replace the value of an existing key in place,
otherwise append the new key at the end (Python insertion order). -/
def Assoc.setKey {τ : Type} : List (String × τ) → String → τ → List (String × τ)
  | [], k, v => [(k, v)]
  | kv :: rest, k, v => if kv.1 = k then (k, v) :: rest else kv :: Assoc.setKey rest k v

/-- Python `del d[k]` (under unique keys removing all occurrences of the key
coincides with deleting the single entry). -/
def Assoc.eraseKey {τ : Type} : List (String × τ) → String → List (String × τ)
  | [], _ => []
  | kv :: rest, k => if kv.1 = k then Assoc.eraseKey rest k else kv :: Assoc.eraseKey rest k

/-- Delete every entry whose key occurs in `ks` (the deletion loop at the end
of `ContextStore._clean_expired_sessions`). -/
def Assoc.removeKeys {τ : Type} (ks : List String) : List (String × τ) → List (String × τ)
  | [] => []
  | kv :: rest =>
      if kv.1 ∈ ks then Assoc.removeKeys ks rest else kv :: Assoc.removeKeys ks rest

/-- The keys of an association list are pairwise distinct (always true of a
Python dict). -/
def NodupKeys {τ : Type} (l : List (String × τ)) : Prop :=
  (l.map Prod.fst).Nodup

/-- Python `base.update(frag)`: iterate over the items of `frag`, assigning
each into `base` — a shallow, top-level-replace merge
(`updated_context.update(agent_result.get("context", {}))` in the agent
runner nodes, and `existing_context.update(update_data)` in
`ContextStore.update_context`). -/
def Dict.update (base : Dict) : Dict → Dict
  | [] => base
  | kv :: rest => Dict.update (Assoc.setKey base kv.1 kv.2) rest

/-! ## `ContextStore` (`src/app/storage/context_store.py`, in-memory branch) -/

/-- The in-memory `ContextStore`: `self.context_ttl` (seconds, default 3600),
`self.memory_store` and `self.memory_timestamps` from `_init_memory_store`. -/
structure ContextStore where
  context_ttl : Int
  memory_store : List (String × Dict)
  memory_timestamps : List (String × Int)

/-- A fresh store as built by `_init_memory_store` (both dicts empty). -/
def initStore (ttl : Int) : ContextStore :=
  { context_ttl := ttl, memory_store := [], memory_timestamps := [] }

/-- The key-collection loop of `_clean_expired_sessions`: keys of
`memory_timestamps` whose timestamp satisfies `current_time - timestamp > context_ttl`. -/
def expiredKeys (ttl now : Int) : List (String × Int) → List String
  | [] => []
  | kv :: rest =>
      if now - kv.2 > ttl then kv.1 :: expiredKeys ttl now rest else expiredKeys ttl now rest

/-- `ContextStore._clean_expired_sessions`: collect the expired session ids,
then delete each from both dicts. -/
def ContextStore.cleanExpired (cs : ContextStore) (now : Int) : ContextStore :=
  let ks := expiredKeys cs.context_ttl now cs.memory_timestamps
  { cs with
    memory_store := Assoc.removeKeys ks cs.memory_store
    memory_timestamps := Assoc.removeKeys ks cs.memory_timestamps }

/-- `ContextStore.store_context` (in-memory branch): write the context and the
timestamp, then run the amortized sweep when `len(self.memory_store) % 10 == 0`
(the length taken after the insertion).  Returns the success flag together
with the updated store. -/
def ContextStore.store_context (cs : ContextStore) (now : Int) (sid : String) (ctx : Dict) :
    Bool × ContextStore :=
  let cs1 : ContextStore :=
    { cs with
      memory_store := Assoc.setKey cs.memory_store sid ctx
      memory_timestamps := Assoc.setKey cs.memory_timestamps sid now }
  let cs2 := if cs1.memory_store.length % 10 = 0 then cs1.cleanExpired now else cs1
  (true, cs2)

/-- `ContextStore.get_context` (in-memory branch): a hit within the TTL
refreshes the timestamp and returns the stored dict; an expired hit deletes
the session from both dicts and misses; a session present in `memory_store`
but absent from `memory_timestamps` raises `KeyError`, which the surrounding
`except` turns into a plain miss with the store unchanged. -/
def ContextStore.get_context (cs : ContextStore) (now : Int) (sid : String) :
    Option Dict × ContextStore :=
  match Assoc.lookup cs.memory_store sid with
  | some ctx =>
      match Assoc.lookup cs.memory_timestamps sid with
      | some ts =>
          if now - ts ≤ cs.context_ttl then
            (some ctx, { cs with memory_timestamps := Assoc.setKey cs.memory_timestamps sid now })
          else
            (none, { cs with
                      memory_store := Assoc.eraseKey cs.memory_store sid
                      memory_timestamps := Assoc.eraseKey cs.memory_timestamps sid })
      | none => (none, cs)
  | none => (none, cs)

/-- `ContextStore.update_context`: read (possibly-refreshing) the existing
context, shallow-merge the update into it, and store the result. -/
def ContextStore.update_context (cs : ContextStore) (now : Int) (sid : String) (d : Dict) :
    Bool × ContextStore :=
  let g := cs.get_context now sid
  let existing := g.1.getD []
  g.2.store_context now sid (Dict.update existing d)

/-- `ContextStore.delete_context` (in-memory branch): remove the session from
both dicts (the code guards each `del` with a membership test, so deleting an
absent key is a no-op), and report success. -/
def ContextStore.delete_context (cs : ContextStore) (sid : String) : Bool × ContextStore :=
  (true, { cs with
            memory_store := Assoc.eraseKey cs.memory_store sid
            memory_timestamps := Assoc.eraseKey cs.memory_timestamps sid })

/-- One externally invocable `ContextStore` operation, with its `time.time()`
instant where the code reads the clock (`delete_context` never reads it). -/
inductive StoreOp where
  | put (now : Int) (sid : String) (ctx : Dict)
  | get (now : Int) (sid : String)
  | upd (now : Int) (sid : String) (d : Dict)
  | del (sid : String)
  | sweep (now : Int)

/-- Apply one store operation (dropping the returned value/flag). -/
def applyOp (cs : ContextStore) : StoreOp → ContextStore
  | .put now sid ctx => (cs.store_context now sid ctx).2
  | .get now sid => (cs.get_context now sid).2
  | .upd now sid d => (cs.update_context now sid d).2
  | .del sid => (cs.delete_context sid).2
  | .sweep now => cs.cleanExpired now

/-- Run a sequence of store operations. -/
def runOps (cs : ContextStore) (ops : List StoreOp) : ContextStore :=
  ops.foldl applyOp cs

/-! ## `AgentOrchestrator` (`src/app/orchestrator/agent_orchestrator.py`) -/

/-- A Python exception as the orchestrator can observe it. -/
inductive PyErr where
  | typeErrorMultipleValues (kw : String)
  | graphRecursionError
  | exn (msg : String)

/-- Python `str(e)` for the exceptions above (quotation marks around the
keyword name elided). -/
def PyErr.toMsg : PyErr → String
  | .typeErrorMultipleValues kw =>
      "AgentState() got multiple values for keyword argument " ++ kw
  | .graphRecursionError => "Recursion limit of 25 reached"
  | .exn m => m

/-- Python `str.strip()` for the whitespace characters it removes by default
(executable model of the normalization in `_parse_intent`). -/
def isPySpace (c : Char) : Bool :=
  c = ' ' || c = '\t' || c = '\n' || c = '\r' || c = '\x0b' || c = '\x0c'

/-- Python `s.strip()`. -/
def pyStrip (s : String) : String :=
  String.mk (((s.toList.dropWhile isPySpace).reverse.dropWhile isPySpace).reverse)

/-- Python `s.lower()` (ASCII behaviour suffices for capability names). -/
def pyLower (s : String) : String := String.mk (s.toList.map Char.toLower)

/-- The keys of `self.agents` built in `AgentOrchestrator.__init__`. -/
def registeredAgents : List String :=
  ["github", "proposal_validator", "lead_generation", "outreach"]

/-- The handler result contract: the dict an agent `run` returns, read through
`agent_result.get("response", "")`, `agent_result.get("context", {})` and
`agent_result.get("complete", False)`. -/
structure HandlerEnvelope where
  response : Val
  context : Dict
  complete : Bool

/-- One entry of `state.history` as appended by the agent runner nodes:
`{"agent": ..., "input": state.user_input, "output": agent_result.get("response", "")}`. -/
structure HistEntry where
  agent : String
  input : String
  output : Val

/-- The pydantic model `AgentState`. -/
structure AgentState where
  user_input : String
  context : Dict
  history : List HistEntry
  current_agent : Option String := none
  output : Option HandlerEnvelope := none
  error : Option String := none

/-- The keys of the dict produced by `state.dict()` — the field names of the
pydantic model `AgentState`, every one present whether or not its value is
`None`. -/
def agentStateDictKeys : List String :=
  ["user_input", "context", "history", "current_agent", "output", "error"]

/-- The CPython call `AgentState(**state.dict(), kw=value)`: building the
keyword mapping raises `TypeError` whenever `kw` is already a key of
`state.dict()` — which it always is, since `state.dict()` carries every field
of the model. -/
def kwUpdate (kw : String) (updated : AgentState) : Except PyErr AgentState :=
  if kw ∈ agentStateDictKeys then .error (.typeErrorMultipleValues kw) else .ok updated

/-- `AgentOrchestrator._parse_intent`.  The injected classifier outcome
(`response.choices[0].message.content`, or the exception the OpenAI call
raised) is the `classifyResult` argument.  The `try` body normalizes the
returned text with `.strip().lower()`, collapses unregistered names to `None`,
and then evaluates `AgentState(**state.dict(), current_agent=agent_name)`;
the `except` arm evaluates `AgentState(**state.dict(), error=...)`.  Both of
those constructor calls duplicate a keyword of `state.dict()`, so the `try`
body always raises and the `except` arm always re-raises. -/
def parse_intent (classifyResult : Except String String) (state : AgentState) :
    Except PyErr AgentState :=
  let attempt : Except PyErr AgentState :=
    match classifyResult with
    | .error e => .error (.exn e)
    | .ok content =>
        let raw := pyLower (pyStrip content)
        let agent_name : Option String :=
          if registeredAgents.contains raw then some raw else none
        kwUpdate "current_agent" { state with current_agent := agent_name }
  match attempt with
  | .ok s => .ok s
  | .error e =>
      kwUpdate "error" { state with error := some ("Error parsing intent: " ++ e.toMsg) }

/-- The common body of `_run_github_agent`, `_run_proposal_validator`,
`_run_lead_generation` and `_run_outreach` (the four differ only in the agent
name and the error prefix).  On handler success: shallow-merge the returned
context fragment over a copy of the turn context, append one history entry,
and rebuild the state with explicit keywords (so no duplicate-keyword issue
on this path).  On handler exception: the `except` arm again evaluates
`AgentState(**state.dict(), error=...)`, which raises. -/
def runAgentNode (agentName errPrefix : String)
    (handlerResult : Except String HandlerEnvelope) (state : AgentState) :
    Except PyErr AgentState :=
  match handlerResult with
  | .ok agent_result =>
      .ok { user_input := state.user_input
            context := Dict.update state.context agent_result.context
            history := state.history ++
              [{ agent := agentName, input := state.user_input, output := agent_result.response }]
            current_agent := some agentName
            output := some agent_result
            error := none }
  | .error e => kwUpdate "error" { state with error := some (errPrefix ++ e) }

/-- `AgentOrchestrator._check_completion`: end the turn on a recorded error,
or when the last output envelope has a truthy `complete`. -/
def checkCompletion (state : AgentState) : Bool :=
  if state.error.isSome then true
  else
    match state.output with
    | some envl => envl.complete
    | none => false

/-- The nodes added in `AgentOrchestrator._build_workflow`. -/
inductive Node where
  | parseIntentNode
  | githubNode
  | proposalValidatorNode
  | leadGenerationNode
  | outreachNode
deriving DecidableEq

/-- The guarded edges out of `parse_intent` (`_should_route_to_github`,
`_should_route_to_validator`, `_should_route_to_lead_gen`,
`_should_route_to_outreach`).  When no guard holds the engine has no
successor task and execution halts with the current state.  (The graph
engine itself is the external `langgraph` library; these routing semantics
are the router pattern the builder requests.  Every reachable run of the
compiled graph stops inside `parse_intent` anyway, so nothing proved below
depends on this routing model.) -/
def routeFromParse (state : AgentState) : Option Node :=
  if state.current_agent = some "github" then some .githubNode
  else if state.current_agent = some "proposal_validator" then some .proposalValidatorNode
  else if state.current_agent = some "lead_generation" then some .leadGenerationNode
  else if state.current_agent = some "outreach" then some .outreachNode
  else none

/-- The injected external behaviours, indexed by the node-execution step at
which the call happens: the classifier (the OpenAI chat call in
`_parse_intent`) and the four agent `run` methods (looked up by agent
name).  `Except.error` models the call raising. -/
structure Oracles where
  classify : Nat → Except String String
  handler : String → Nat → Except String HandlerEnvelope

/-- Run one graph node. -/
def nodeFn (o : Oracles) (step : Nat) : Node → AgentState → Except PyErr AgentState
  | .parseIntentNode => parse_intent (o.classify step)
  | .githubNode => runAgentNode "github" "GitHub agent error: " (o.handler "github" step)
  | .proposalValidatorNode =>
      runAgentNode "proposal_validator" "Proposal validator error: "
        (o.handler "proposal_validator" step)
  | .leadGenerationNode =>
      runAgentNode "lead_generation" "Lead generation error: " (o.handler "lead_generation" step)
  | .outreachNode => runAgentNode "outreach" "Outreach agent error: " (o.handler "outreach" step)

/-- Does executing this node invoke a capability handler (a dispatch)? -/
def Node.isDispatch : Node → Bool
  | .parseIntentNode => false
  | _ => true

/-- The execution loop of the compiled graph (the `langgraph` engine,
modelled): run the current node; propagate its exception, otherwise follow
the guarded edges from `parse_intent`, or the `_check_completion` conditional
edges from the agent nodes (`True ↦ END`, `False ↦ parse_intent`).  The
engine stops with `GraphRecursionError` once its recursion limit (default 25
supersteps) is exhausted.  Alongside the result, the number of handler
dispatches performed is returned. -/
def invokeAux (o : Oracles) : Nat → Nat → Node → AgentState → Except PyErr AgentState × Nat
  | 0, _, _, _ => (.error .graphRecursionError, 0)
  | fuel + 1, step, node, st =>
      let d : Nat := if node.isDispatch then 1 else 0
      match nodeFn o step node st with
      | .error e => (.error e, d)
      | .ok s =>
          match node with
          | .parseIntentNode =>
              match routeFromParse s with
              | some n => invokeAux o fuel (step + 1) n s
              | none => (.ok s, d)
          | _ =>
              if checkCompletion s then (.ok s, d)
              else
                let r := invokeAux o fuel (step + 1) .parseIntentNode s
                (r.1, d + r.2)

/-- `self.workflow.invoke(initial_state)`: start at the entry point
`parse_intent` with the engine default recursion limit of 25. -/
def invoke (o : Oracles) (st : AgentState) : Except PyErr AgentState × Nat :=
  invokeAux o 25 0 .parseIntentNode st

/-- The result envelope `run_workflow` returns. -/
structure Envelope where
  session_id : String
  output : Option Val
  error : Option String
  agent_used : Option String

/-- The observable outcome of one `run_workflow` call: the envelope, the
store state afterwards, and ghost counters for the number of context-store
`get_context` / `store_context` calls and handler dispatches the call
executed. -/
structure RunResult where
  envelope : Envelope
  store : ContextStore
  getCount : Nat
  putCount : Nat
  dispatchCount : Nat

/-- `AgentOrchestrator.run_workflow`.  `freshId` stands for the
`str(uuid.uuid4())` drawn when no session id was supplied; `now` is the
wall-clock instant of the call.  The function never lets an exception past
its own `try`/`except`, so its result type is `Except` only to make that
visible: both arms produce `.ok`. -/
def run_workflow (o : Oracles) (cs : ContextStore) (now : Int) (user_input : String)
    (session_id : Option String) (freshId : String) : Except PyErr RunResult :=
  let sid := session_id.getD freshId
  let g := cs.get_context now sid
  let context := g.1.getD []
  let initial : AgentState := { user_input := user_input, context := context, history := [] }
  match invoke o initial with
  | (.ok final, d) =>
      let cs2 := if final.context.isEmpty then g.2 else (g.2.store_context now sid final.context).2
      .ok { envelope :=
              { session_id := sid
                output := final.output.map (fun e => e.response)
                error := final.error
                agent_used := final.current_agent }
            store := cs2
            getCount := 1
            putCount := if final.context.isEmpty then 0 else 1
            dispatchCount := d }
  | (.error e, d) =>
      .ok { envelope :=
              { session_id := sid
                output := none
                error := some ("Workflow error: " ++ e.toMsg)
                agent_used := none }
            store := g.2
            getCount := 1
            putCount := 0
            dispatchCount := d }

/-- The error message every `run_workflow` call actually produces: the
re-raised duplicate-keyword `TypeError` from the `except` arm of
`_parse_intent`, rendered through `f"Workflow error: {str(e)}"`. -/
def workflowTypeErrorMsg : String :=
  "Workflow error: AgentState() got multiple values for keyword argument error"

/-! ## Auxiliary definitions used by the statements below -/

/-- Does the character list start with the pattern? -/
def leadMatch : List Char → List Char → Bool
  | [], _ => true
  | _ :: _, [] => false
  | a :: as, b :: bs => a = b && leadMatch as bs

/-- Does the character list contain the pattern as a contiguous run? -/
def hasRun (pat : List Char) : List Char → Bool
  | [] => leadMatch pat []
  | c :: rest => leadMatch pat (c :: rest) || hasRun pat rest

/-- Does the string contain the given pattern as a substring?  Used to show
that an error message does not carry some required wording. -/
def strHasSub (pat s : String) : Bool := hasRun pat.toList s.toList

/-- The intervening operations the round-trip property allows: any operation
whose clock reading lies inside the window from `t0` to `t1` and which is not
a `put`, `update` or `delete` of the session under consideration (reads of it
are fine — they only refresh its expiry clock). -/
def opSafe (sid : String) (t0 t1 : Int) : StoreOp → Prop
  | .put n s _ => s ≠ sid ∧ t0 ≤ n ∧ n ≤ t1
  | .get n _ => t0 ≤ n ∧ n ≤ t1
  | .upd n s _ => s ≠ sid ∧ t0 ≤ n ∧ n ≤ t1
  | .del s => s ≠ sid
  | .sweep n => t0 ≤ n ∧ n ≤ t1

instance (sid : String) (t0 t1 : Int) (op : StoreOp) : Decidable (opSafe sid t0 t1 op) := by
  cases op <;> dsimp only [opSafe] <;> infer_instance

/-- Invariant of the round-trip argument: while every clock reading stays in
the window from `t0` to `t1` and the window is strictly shorter than the TTL,
the session keeps its stored context and a timestamp inside the window, and
the timestamp dict keeps unique keys. -/
structure RTInv (ttl t0 t1 : Int) (sid : String) (ctx : Dict) (cs : ContextStore) : Prop where
  httl : cs.context_ttl = ttl
  hstore : Assoc.lookup cs.memory_store sid = some ctx
  hts : ∃ ts, Assoc.lookup cs.memory_timestamps sid = some ts ∧ t0 ≤ ts ∧ ts ≤ t1
  hnd : NodupKeys cs.memory_timestamps

/-- A sequence of `get_context` calls on one session at the given instants,
returning all results and the final store. -/
def slidingGets (cs : ContextStore) (sid : String) : List Int → List (Option Dict) × ContextStore
  | [] => ([], cs)
  | t :: ts =>
      let g := cs.get_context t sid
      let r := slidingGets g.2 sid ts
      (g.1 :: r.1, r.2)

/-- The two in-memory dicts hold exactly the same set of session ids. -/
def keysAligned (cs : ContextStore) : Prop :=
  ∀ k, (Assoc.lookup cs.memory_store k).isSome ↔ (Assoc.lookup cs.memory_timestamps k).isSome

/-! ## Concrete fixtures for counterexamples and witnesses -/

/-- Two handlers that always report `complete=false`, with a classifier that
keeps bouncing the turn between them — the configuration of the chain-limit
scenario. -/
def cyclingOracles : Oracles where
  classify := fun n => .ok (if n % 2 = 0 then "github" else "outreach")
  handler := fun _ _ => .ok ⟨.str "", [], false⟩

/-- The github handler envelope of the happy-path scenario:
`{response: "3 open issues", context: {github: {...}}, complete: true}`. -/
def happyGithubEnvelope : HandlerEnvelope :=
  ⟨.str "3 open issues", [("github", .dict [("open_issues", .num 3)])], true⟩

/-- Oracles of the happy-path scenario: the classifier answers `github` and
the github handler returns `happyGithubEnvelope`. -/
def happyOracles : Oracles where
  classify := fun _ => .ok "github"
  handler := fun name _ =>
    if name = "github" then .ok happyGithubEnvelope else .ok ⟨.str "", [], false⟩

/-- Oracles of the no-route scenario: the classifier answers the unregistered
string `weather`. -/
def weatherOracles : Oracles where
  classify := fun _ => .ok "weather"
  handler := fun _ _ => .ok ⟨.str "", [], false⟩

/-- The chain-limit scenario run. -/
def cyclingRun : Except PyErr RunResult :=
  run_workflow cyclingOracles (initStore 3600) 0 "do the chained task" (some "sess-1") "fresh-uuid"

/-- The happy-path scenario run, against an empty store. -/
def happyRun : Except PyErr RunResult :=
  run_workflow happyOracles (initStore 3600) 1000 "list open issues for owner/repo"
    (some "sess-42") "fresh-uuid"

/-- The no-route scenario run. -/
def weatherRun : Except PyErr RunResult :=
  run_workflow weatherOracles (initStore 3600) 0 "what is the weather" (some "sess-w") "fresh-uuid"

/-- A sample context mapping. -/
def demoCtx : Dict := [("github", .dict [("token", .str "abc")])]

/-- Sample intervening operations on other sessions (and one read of the
session itself) for the round-trip witness. -/
def demoOps : List StoreOp :=
  [.get 10 "alice", .put 20 "bob" [], .upd 30 "bob" [("k", .num 1)], .del "bob", .sweep 40]

/-- A prior turn context with a stale `github` namespace and an unrelated key. -/
def baseCtx : Dict := [("github", .dict [("stale", .num 1)]), ("keep", .num 7)]

/-- A handler context fragment that rewrites the `github` namespace wholesale. -/
def fragCtx : Dict := [("github", .dict [("fresh", .num 2)])]

/-- A handler envelope carrying `fragCtx`. -/
def ghEnv : HandlerEnvelope := ⟨.str "done", fragCtx, true⟩

/-- The turn state before the dispatch of the merge witness. -/
def preState : AgentState := { user_input := "q", context := baseCtx, history := [] }

/-! ## Helper lemmas -/

theorem parse_intent_raises (c : Except String String) (s : AgentState) :
    parse_intent c s = .error (.typeErrorMultipleValues "error") := by
  cases c <;> rfl

theorem run_workflow_spec (o : Oracles) (cs : ContextStore) (now : Int) (input : String)
    (sid? : Option String) (freshId : String) :
    run_workflow o cs now input sid? freshId =
      .ok { envelope :=
              { session_id := sid?.getD freshId, output := none,
                error := some workflowTypeErrorMsg, agent_used := none }
            store := (cs.get_context now (sid?.getD freshId)).2
            getCount := 1, putCount := 0, dispatchCount := 0 } := by
  have h : invoke o ⟨input, (cs.get_context now (sid?.getD freshId)).1.getD [], [],
      none, none, none⟩ = (.error (.typeErrorMultipleValues "error"), 0) := by
    show invokeAux o 25 0 .parseIntentNode _ = _
    rw [show (25 : Nat) = 24 + 1 from rfl]
    simp only [invokeAux, nodeFn, Node.isDispatch, parse_intent_raises]
    rfl
  simp only [run_workflow, h]
  rfl

theorem Assoc.lookup_setKey {τ : Type} (l : List (String × τ)) (k k' : String) (v : τ) :
    Assoc.lookup (Assoc.setKey l k v) k' = if k = k' then some v else Assoc.lookup l k' := by
  induction l with
  | nil => simp [Assoc.setKey, Assoc.lookup]
  | cons kv rest ih =>
      by_cases h : kv.1 = k
      · simp only [Assoc.setKey, h, if_pos rfl, Assoc.lookup]
        split_ifs with h1 <;> simp_all [Assoc.lookup]
      · simp only [Assoc.setKey, h, if_neg h, Assoc.lookup, ih]
        split_ifs with h1 h2 <;> simp_all

theorem Assoc.lookup_eraseKey {τ : Type} (l : List (String × τ)) (k k' : String) :
    Assoc.lookup (Assoc.eraseKey l k) k' = if k = k' then none else Assoc.lookup l k' := by
  induction l with
  | nil => simp [Assoc.eraseKey, Assoc.lookup]
  | cons kv rest ih =>
      by_cases h : kv.1 = k
      · simp only [Assoc.eraseKey, if_pos h, ih]
        split_ifs with h1 <;> simp_all [Assoc.lookup]
      · simp only [Assoc.eraseKey, if_neg h, Assoc.lookup, ih]
        split_ifs with h1 h2 <;> simp_all

theorem Assoc.lookup_removeKeys {τ : Type} (ks : List String) (l : List (String × τ)) (k : String) :
    Assoc.lookup (Assoc.removeKeys ks l) k = if k ∈ ks then none else Assoc.lookup l k := by
  induction l with
  | nil => simp [Assoc.removeKeys, Assoc.lookup]
  | cons kv rest ih =>
      by_cases h : kv.1 ∈ ks
      · simp only [Assoc.removeKeys, if_pos h, ih]
        split_ifs with h1 <;> simp_all [Assoc.lookup]
        have hne : ¬ kv.1 = k := fun hk => h1 (hk ▸ h)
        simp [hne]
      · simp only [Assoc.removeKeys, if_neg h, Assoc.lookup, ih]
        split_ifs with h1 h2 <;> simp_all

theorem Assoc.lookup_eq_none_of_not_mem {τ : Type} (l : List (String × τ)) (k : String)
    (h : k ∉ l.map Prod.fst) : Assoc.lookup l k = none := by
  induction l with
  | nil => rfl
  | cons kv rest ih =>
      simp only [List.map_cons, List.mem_cons] at h
      push_neg at h
      have hne : ¬ kv.1 = k := fun hh => h.1 hh.symm
      simp [Assoc.lookup, hne, ih h.2]

theorem Assoc.keys_setKey {τ : Type} (l : List (String × τ)) (k : String) (v : τ) :
    (Assoc.setKey l k v).map Prod.fst =
      if k ∈ l.map Prod.fst then l.map Prod.fst else l.map Prod.fst ++ [k] := by
  induction l with
  | nil => simp [Assoc.setKey]
  | cons kv rest ih =>
      by_cases h : kv.1 = k
      · simp [Assoc.setKey, h]
      · have hne : ¬ k = kv.1 := fun hk => h hk.symm
        simp only [Assoc.setKey, if_neg h, List.map_cons, ih, List.mem_cons]
        split_ifs with h1 h2 h3 <;> simp_all

theorem NodupKeys.setKey {τ : Type} {l : List (String × τ)} (h : NodupKeys l)
    (k : String) (v : τ) : NodupKeys (Assoc.setKey l k v) := by
  unfold NodupKeys at *
  rw [Assoc.keys_setKey]
  split_ifs with h1
  · exact h
  · refine List.Nodup.append h (List.nodup_singleton _) ?_
    intro a ha hak
    have : a = k := by simpa using hak
    exact h1 (this ▸ ha)

theorem Assoc.keys_eraseKey_sublist {τ : Type} (l : List (String × τ)) (k : String) :
    ((Assoc.eraseKey l k).map Prod.fst).Sublist (l.map Prod.fst) := by
  induction l with
  | nil => simp [Assoc.eraseKey]
  | cons kv rest ih =>
      by_cases h : kv.1 = k
      · simp only [Assoc.eraseKey, if_pos h, List.map_cons]
        exact ih.trans (List.sublist_cons_self _ _)
      · simpa [Assoc.eraseKey, h] using ih.cons₂ kv.1

theorem NodupKeys.eraseKey {τ : Type} {l : List (String × τ)} (h : NodupKeys l)
    (k : String) : NodupKeys (Assoc.eraseKey l k) :=
  List.Nodup.sublist (Assoc.keys_eraseKey_sublist l k) h

theorem Assoc.keys_removeKeys_sublist {τ : Type} (ks : List String) (l : List (String × τ)) :
    ((Assoc.removeKeys ks l).map Prod.fst).Sublist (l.map Prod.fst) := by
  induction l with
  | nil => simp [Assoc.removeKeys]
  | cons kv rest ih =>
      by_cases h : kv.1 ∈ ks
      · simp only [Assoc.removeKeys, if_pos h, List.map_cons]
        exact ih.trans (List.sublist_cons_self _ _)
      · simpa [Assoc.removeKeys, h] using ih.cons₂ kv.1

theorem NodupKeys.removeKeys {τ : Type} {l : List (String × τ)} (h : NodupKeys l)
    (ks : List String) : NodupKeys (Assoc.removeKeys ks l) :=
  List.Nodup.sublist (Assoc.keys_removeKeys_sublist ks l) h

theorem mem_keys_of_mem_expiredKeys {ttl now : Int} {tst : List (String × Int)} {k : String}
    (h : k ∈ expiredKeys ttl now tst) : k ∈ tst.map Prod.fst := by
  induction tst with
  | nil => simp [expiredKeys] at h
  | cons kv rest ih =>
      by_cases hc : now - kv.2 > ttl
      · simp only [expiredKeys, if_pos hc, List.mem_cons] at h
        rcases h with h | h
        · simp [h]
        · simp [ih h]
      · simp only [expiredKeys, if_neg hc] at h
        simp [ih h]

theorem not_mem_expiredKeys {ttl now : Int} {tst : List (String × Int)} {k : String} {ts : Int}
    (hnd : NodupKeys tst) (hlk : Assoc.lookup tst k = some ts) (hts : now - ts ≤ ttl) :
    k ∉ expiredKeys ttl now tst := by
  induction tst with
  | nil => simp [expiredKeys]
  | cons kv rest ih =>
      unfold NodupKeys at hnd
      simp only [List.map_cons, List.nodup_cons] at hnd
      by_cases h : kv.1 = k
      · have hv : kv.2 = ts := by simpa [Assoc.lookup, h] using hlk
        by_cases hc : now - kv.2 > ttl
        · exact ((by omega : False)).elim
        · simp only [expiredKeys, if_neg hc]
          intro hmem
          exact (h ▸ hnd.1) (mem_keys_of_mem_expiredKeys hmem)
      · have hlk2 : Assoc.lookup rest k = some ts := by simpa [Assoc.lookup, h] using hlk
        have ihw := ih hnd.2 hlk2
        by_cases hc : now - kv.2 > ttl
        · simp only [expiredKeys, if_pos hc, List.mem_cons]
          push_neg
          exact ⟨fun hk => h hk.symm, ihw⟩
        · simpa [expiredKeys, hc] using ihw

theorem rtInv_clean {ttl t0 t1 : Int} {sid : String} {ctx : Dict} {cs : ContextStore}
    (h : RTInv ttl t0 t1 sid ctx cs) (hwin : t1 - t0 < ttl) {n : Int}
    (hn0 : t0 ≤ n) (hn1 : n ≤ t1) : RTInv ttl t0 t1 sid ctx (cs.cleanExpired n) := by
  obtain ⟨ts, hl, hts0, hts1⟩ := h.hts
  have hfresh : n - ts ≤ cs.context_ttl := by rw [h.httl]; omega
  have hnotexp : sid ∉ expiredKeys cs.context_ttl n cs.memory_timestamps :=
    not_mem_expiredKeys h.hnd hl hfresh
  refine ⟨h.httl, ?_, ⟨ts, ?_, hts0, hts1⟩, ?_⟩
  · simpa [ContextStore.cleanExpired, Assoc.lookup_removeKeys, hnotexp] using h.hstore
  · simpa [ContextStore.cleanExpired, Assoc.lookup_removeKeys, hnotexp] using hl
  · exact NodupKeys.removeKeys h.hnd _

theorem rtInv_store {ttl t0 t1 : Int} {sid : String} {ctx : Dict} {cs : ContextStore}
    (h : RTInv ttl t0 t1 sid ctx cs) (hwin : t1 - t0 < ttl) {n : Int} {sid2 : String} {c2 : Dict}
    (hne : sid2 ≠ sid) (hn0 : t0 ≤ n) (hn1 : n ≤ t1) :
    RTInv ttl t0 t1 sid ctx (cs.store_context n sid2 c2).2 := by
  obtain ⟨ts, hl, hts0, hts1⟩ := h.hts
  have h1 : RTInv ttl t0 t1 sid ctx
      { cs with memory_store := Assoc.setKey cs.memory_store sid2 c2
                memory_timestamps := Assoc.setKey cs.memory_timestamps sid2 n } := by
    refine ⟨h.httl, ?_, ⟨ts, ?_, hts0, hts1⟩, NodupKeys.setKey h.hnd _ _⟩
    · simpa [Assoc.lookup_setKey, hne] using h.hstore
    · simpa [Assoc.lookup_setKey, hne] using hl
  simp only [ContextStore.store_context]
  split_ifs with hlen
  · exact rtInv_clean h1 hwin hn0 hn1
  · exact h1

theorem rtInv_get {ttl t0 t1 : Int} {sid : String} {ctx : Dict} {cs : ContextStore}
    (h : RTInv ttl t0 t1 sid ctx cs) (hwin : t1 - t0 < ttl) {n : Int} (sid2 : String)
    (hn0 : t0 ≤ n) (hn1 : n ≤ t1) :
    RTInv ttl t0 t1 sid ctx (cs.get_context n sid2).2 := by
  obtain ⟨ts, hl, hts0, hts1⟩ := h.hts
  by_cases hs : sid2 = sid
  · subst hs
    have hcond : n - ts ≤ cs.context_ttl := by rw [h.httl]; omega
    simp only [ContextStore.get_context, h.hstore, hl, if_pos hcond]
    exact ⟨h.httl, h.hstore, ⟨n, by simp [Assoc.lookup_setKey], hn0, hn1⟩,
      NodupKeys.setKey h.hnd _ _⟩
  · have hne : sid2 ≠ sid := hs
    simp only [ContextStore.get_context]
    cases hls : Assoc.lookup cs.memory_store sid2 with
    | none => exact h
    | some c2 =>
        cases hlt : Assoc.lookup cs.memory_timestamps sid2 with
        | none => exact h
        | some ts2 =>
            dsimp only
            split_ifs with hcond
            · exact ⟨h.httl, h.hstore, ⟨ts, by simpa [Assoc.lookup_setKey, hne] using hl,
                hts0, hts1⟩, NodupKeys.setKey h.hnd _ _⟩
            · exact ⟨h.httl, by simpa [Assoc.lookup_eraseKey, hne] using h.hstore,
                ⟨ts, by simpa [Assoc.lookup_eraseKey, hne] using hl, hts0, hts1⟩,
                NodupKeys.eraseKey h.hnd _⟩

theorem rtInv_upd {ttl t0 t1 : Int} {sid : String} {ctx : Dict} {cs : ContextStore}
    (h : RTInv ttl t0 t1 sid ctx cs) (hwin : t1 - t0 < ttl) {n : Int} {sid2 : String} {d : Dict}
    (hne : sid2 ≠ sid) (hn0 : t0 ≤ n) (hn1 : n ≤ t1) :
    RTInv ttl t0 t1 sid ctx (cs.update_context n sid2 d).2 :=
  rtInv_store (rtInv_get h hwin sid2 hn0 hn1) hwin hne hn0 hn1

theorem rtInv_del {ttl t0 t1 : Int} {sid : String} {ctx : Dict} {cs : ContextStore}
    (h : RTInv ttl t0 t1 sid ctx cs) {sid2 : String} (hne : sid2 ≠ sid) :
    RTInv ttl t0 t1 sid ctx (cs.delete_context sid2).2 := by
  obtain ⟨ts, hl, hts0, hts1⟩ := h.hts
  exact ⟨h.httl, by simpa [ContextStore.delete_context, Assoc.lookup_eraseKey, hne] using h.hstore,
    ⟨ts, by simpa [ContextStore.delete_context, Assoc.lookup_eraseKey, hne] using hl, hts0, hts1⟩,
    NodupKeys.eraseKey h.hnd _⟩

theorem rtInv_applyOp {ttl t0 t1 : Int} {sid : String} {ctx : Dict} {cs : ContextStore}
    (h : RTInv ttl t0 t1 sid ctx cs) (hwin : t1 - t0 < ttl) {op : StoreOp}
    (hop : opSafe sid t0 t1 op) : RTInv ttl t0 t1 sid ctx (applyOp cs op) := by
  cases op with
  | put n s c => exact rtInv_store h hwin hop.1 hop.2.1 hop.2.2
  | get n s => exact rtInv_get h hwin s hop.1 hop.2
  | upd n s d => exact rtInv_upd h hwin hop.1 hop.2.1 hop.2.2
  | del s => exact rtInv_del h hop
  | sweep n => exact rtInv_clean h hwin hop.1 hop.2

theorem rtInv_runOps {ttl t0 t1 : Int} {sid : String} {ctx : Dict}
    (hwin : t1 - t0 < ttl) (ops : List StoreOp) :
    ∀ cs : ContextStore, RTInv ttl t0 t1 sid ctx cs →
      (∀ op ∈ ops, opSafe sid t0 t1 op) → RTInv ttl t0 t1 sid ctx (runOps cs ops) := by
  induction ops with
  | nil => intro cs h _; exact h
  | cons op rest ih =>
      intro cs h hops
      exact ih _ (rtInv_applyOp h hwin (hops op (by simp)))
        (fun o ho => hops o (List.mem_cons_of_mem _ ho))

theorem rtInv_afterPut {t0 t1 : Int} {sid : String} {ctx : Dict} {cs : ContextStore}
    (hnd : NodupKeys cs.memory_timestamps) (hwin : t1 - t0 < cs.context_ttl) (h01 : t0 ≤ t1) :
    RTInv cs.context_ttl t0 t1 sid ctx (cs.store_context t0 sid ctx).2 := by
  have h1 : RTInv cs.context_ttl t0 t1 sid ctx
      { cs with memory_store := Assoc.setKey cs.memory_store sid ctx
                memory_timestamps := Assoc.setKey cs.memory_timestamps sid t0 } := by
    refine ⟨rfl, ?_, ⟨t0, ?_, le_refl t0, h01⟩, NodupKeys.setKey hnd _ _⟩
    · simp [Assoc.lookup_setKey]
    · simp [Assoc.lookup_setKey]
  simp only [ContextStore.store_context]
  split_ifs with hlen
  · exact rtInv_clean h1 hwin (le_refl t0) h01
  · exact h1

theorem roundtrip_get {ttl t0 t1 : Int} {sid : String} {ctx : Dict} {cs : ContextStore}
    (h : RTInv ttl t0 t1 sid ctx cs) (hwin : t1 - t0 < ttl) :
    (cs.get_context t1 sid).1 = some ctx := by
  obtain ⟨ts, hl, hts0, hts1⟩ := h.hts
  have hcond : t1 - ts ≤ cs.context_ttl := by rw [h.httl]; omega
  simp only [ContextStore.get_context, h.hstore, hl]
  rw [if_pos hcond]

theorem sliding_alive {sid : String} {ctx : Dict} :
    ∀ (times : List Int) (cs : ContextStore) (last : Int),
      Assoc.lookup cs.memory_store sid = some ctx →
      Assoc.lookup cs.memory_timestamps sid = some last →
      List.Chain (fun a b => b - a ≤ cs.context_ttl) last times →
      (slidingGets cs sid times).1 = times.map (fun _ => some ctx) := by
  intro times
  induction times with
  | nil => intro cs last _ _ _; rfl
  | cons t rest ih =>
      intro cs last hstore hts hchain
      rcases hchain with _ | ⟨hd, tl⟩
      have hcond : t - last ≤ cs.context_ttl := hd
      have hget : cs.get_context t sid =
          (some ctx, { cs with memory_timestamps := Assoc.setKey cs.memory_timestamps sid t }) := by
        simp only [ContextStore.get_context, hstore, hts]
        rw [if_pos hcond]
      simp only [slidingGets, hget, List.map_cons]
      exact congrArg (List.cons (some ctx)) (ih _ t hstore (by simp [Assoc.lookup_setKey]) tl)

theorem afterPut_state {cs : ContextStore} {sid : String} {ctx : Dict} {t0 : Int}
    (hnd : NodupKeys cs.memory_timestamps) (httl : 0 ≤ cs.context_ttl) :
    Assoc.lookup (cs.store_context t0 sid ctx).2.memory_store sid = some ctx ∧
    Assoc.lookup (cs.store_context t0 sid ctx).2.memory_timestamps sid = some t0 ∧
    (cs.store_context t0 sid ctx).2.context_ttl = cs.context_ttl ∧
    NodupKeys (cs.store_context t0 sid ctx).2.memory_timestamps := by
  have hnd1 : NodupKeys (Assoc.setKey cs.memory_timestamps sid t0) := NodupKeys.setKey hnd _ _
  have hlset : Assoc.lookup (Assoc.setKey cs.memory_timestamps sid t0) sid = some t0 := by
    simp [Assoc.lookup_setKey]
  have hnotexp : sid ∉ expiredKeys cs.context_ttl t0 (Assoc.setKey cs.memory_timestamps sid t0) :=
    not_mem_expiredKeys hnd1 hlset (by omega)
  simp only [ContextStore.store_context]
  split_ifs with hlen
  · refine ⟨?_, ?_, rfl, NodupKeys.removeKeys hnd1 _⟩
    · simp [ContextStore.cleanExpired, Assoc.lookup_removeKeys, hnotexp, Assoc.lookup_setKey]
    · simp [ContextStore.cleanExpired, Assoc.lookup_removeKeys, hnotexp, hlset]
  · exact ⟨by simp [Assoc.lookup_setKey], hlset, rfl, hnd1⟩

theorem expiry_miss {cs : ContextStore} {sid : String} {ctx : Dict} {t0 t1 : Int}
    (hnd : NodupKeys cs.memory_timestamps) (httl : 0 ≤ cs.context_ttl)
    (hexp : cs.context_ttl < t1 - t0) :
    ((cs.store_context t0 sid ctx).2.get_context t1 sid).1 = none ∧
    ∀ t2, ((((cs.store_context t0 sid ctx).2.get_context t1 sid).2).get_context t2 sid).1 = none := by
  obtain ⟨hstore, hts, httl2, hnd2⟩ := @afterPut_state cs sid ctx t0 hnd httl
  have hcond : ¬ t1 - t0 ≤ (cs.store_context t0 sid ctx).2.context_ttl := by
    rw [httl2]; omega
  have hget : ((cs.store_context t0 sid ctx).2.get_context t1 sid) =
      (none, { (cs.store_context t0 sid ctx).2 with
                memory_store := Assoc.eraseKey (cs.store_context t0 sid ctx).2.memory_store sid
                memory_timestamps :=
                  Assoc.eraseKey (cs.store_context t0 sid ctx).2.memory_timestamps sid }) := by
    simp only [ContextStore.get_context, hstore, hts]
    rw [if_neg hcond]
  refine ⟨by simp [hget], ?_⟩
  intro t2
  rw [hget]
  simp [ContextStore.get_context, Assoc.lookup_eraseKey]

theorem keysAligned_clean {cs : ContextStore} (h : keysAligned cs) (now : Int) :
    keysAligned (cs.cleanExpired now) := by
  intro k
  simp only [ContextStore.cleanExpired, Assoc.lookup_removeKeys]
  split_ifs with hmem
  · simp
  · exact h k

theorem keysAligned_store {cs : ContextStore} (h : keysAligned cs) (now : Int) (sid : String)
    (ctx : Dict) : keysAligned (cs.store_context now sid ctx).2 := by
  have h1 : keysAligned { cs with memory_store := Assoc.setKey cs.memory_store sid ctx
                                  memory_timestamps := Assoc.setKey cs.memory_timestamps sid now } := by
    intro k
    simp only [Assoc.lookup_setKey]
    split_ifs with hk
    · simp
    · exact h k
  simp only [ContextStore.store_context]
  split_ifs with hlen
  · exact keysAligned_clean h1 now
  · exact h1

theorem keysAligned_get {cs : ContextStore} (h : keysAligned cs) (now : Int) (sid : String) :
    keysAligned (cs.get_context now sid).2 := by
  simp only [ContextStore.get_context]
  cases hls : Assoc.lookup cs.memory_store sid with
  | none => exact h
  | some c =>
      cases hlt : Assoc.lookup cs.memory_timestamps sid with
      | none => exact h
      | some ts =>
          dsimp only
          split_ifs with hcond
          · intro k
            simp only [Assoc.lookup_setKey]
            split_ifs with hk
            · subst hk; simp [hls]
            · exact h k
          · intro k
            simp only [Assoc.lookup_eraseKey]
            split_ifs with hk
            · simp
            · exact h k

theorem keysAligned_del {cs : ContextStore} (h : keysAligned cs) (sid : String) :
    keysAligned (cs.delete_context sid).2 := by
  intro k
  simp only [ContextStore.delete_context, Assoc.lookup_eraseKey]
  split_ifs with hk
  · simp
  · exact h k

theorem keysAligned_upd {cs : ContextStore} (h : keysAligned cs) (now : Int) (sid : String)
    (d : Dict) : keysAligned (cs.update_context now sid d).2 :=
  keysAligned_store (keysAligned_get h now sid) now sid _

theorem keysAligned_applyOp {cs : ContextStore} (h : keysAligned cs) (op : StoreOp) :
    keysAligned (applyOp cs op) := by
  cases op with
  | put now sid ctx => exact keysAligned_store h now sid ctx
  | get now sid => exact keysAligned_get h now sid
  | upd now sid d => exact keysAligned_upd h now sid d
  | del sid => exact keysAligned_del h sid
  | sweep now => exact keysAligned_clean h now

theorem keysAligned_runOps (ops : List StoreOp) :
    ∀ cs : ContextStore, keysAligned cs → keysAligned (runOps cs ops) := by
  induction ops with
  | nil => intro cs h; exact h
  | cons op rest ih => intro cs h; exact ih _ (keysAligned_applyOp h op)

theorem keysAligned_initStore (ttl : Int) : keysAligned (initStore ttl) := by
  intro k
  simp [initStore, Assoc.lookup]

theorem lookup_Dict_update : ∀ (frag base : Dict), NodupKeys frag → ∀ k : String,
    Assoc.lookup (Dict.update base frag) k =
      match Assoc.lookup frag k with
      | some v => some v
      | none => Assoc.lookup base k := by
  intro frag
  induction frag with
  | nil => intro base _ k; rfl
  | cons kv rest ih =>
      intro base hnd k
      unfold NodupKeys at hnd
      simp only [List.map_cons, List.nodup_cons] at hnd
      by_cases hk : kv.1 = k
      · have hrest : Assoc.lookup rest k = none :=
          Assoc.lookup_eq_none_of_not_mem _ _ (hk ▸ hnd.1)
        simp only [Dict.update, Assoc.lookup, if_pos hk]
        rw [ih _ hnd.2 k, hrest]
        simp [Assoc.lookup_setKey, hk]
      · simp only [Dict.update, Assoc.lookup, if_neg hk]
        rw [ih _ hnd.2 k]
        cases hr : Assoc.lookup rest k <;> simp [Assoc.lookup_setKey, hk, hr]

/-! ## Claim theorems -/

/-- C1 (counterexample).  In the two-always-incomplete-handlers configuration
the turn does terminate, but after zero handler dispatches and with the
generic workflow error produced by the duplicate-keyword `TypeError` raised
inside `_parse_intent` — not with a chain-limit error after (at most) five
dispatches: the error message contains no chain wording at all, and the
recorded `dispatchCount` is `0`, not `5`.  This falsifies the claim as
stated. -/
theorem C1_counterexample :
    cyclingRun =
      .ok ⟨⟨"sess-1", none, some workflowTypeErrorMsg, none⟩, initStore 3600, 1, 0, 0⟩ ∧
    strHasSub "chain" workflowTypeErrorMsg = false := by
  exact ⟨rfl, by decide⟩

/-- C1 (amended).  For every configuration of handlers and classifier — in
particular for two handlers that always return `complete=false` and route to
each other — driving the workflow terminates the turn: `run_workflow` always
returns an envelope whose error is the workflow-level rendering of the
`TypeError` raised by `_parse_intent` at its first execution, after exactly
zero handler dispatches.  The source configures no maximum chain length and
never emits a chain-limit error; the turn never loops forever only because
the first node of every invocation raises. -/
theorem C1_amended_termination (o : Oracles) (cs : ContextStore) (now : Int) (input : String)
    (sid? : Option String) (freshId : String) :
    ∃ r : RunResult, run_workflow o cs now input sid? freshId = .ok r ∧
      r.dispatchCount = 0 ∧ r.envelope.error = some workflowTypeErrorMsg :=
  ⟨_, run_workflow_spec o cs now input sid? freshId, rfl, rfl⟩

/-- C2.  Behaviour of the code at the happy-path scenario (classifier answers
`github`, the github handler returns `{response: "3 open issues", context:
{github: {...}}, complete: true}`, empty prior store): `run_workflow` returns
`agent_used = none`, `output = none` and the workflow `TypeError` message
instead of the claimed success envelope, performs no `store_context` call,
and leaves the session store without any entry for the session — no `github`
namespace is persisted. -/
theorem C2_happy_path_behavior :
    happyRun =
      .ok ⟨⟨"sess-42", none, some workflowTypeErrorMsg, none⟩, initStore 3600, 1, 0, 0⟩ ∧
    Assoc.lookup (initStore 3600).memory_store "sess-42" = none := by
  exact ⟨rfl, rfl⟩

/-- C3 (counterexample).  When the classifier returns the unregistered string
`weather`, `run_workflow` does return `agent_used = none` and `output = none`
without invoking any handler — but its error is the workflow `TypeError`
message, which does not contain the claimed wording `no capability`
(no such message exists anywhere in the code). -/
theorem C3_counterexample :
    weatherRun =
      .ok ⟨⟨"sess-w", none, some workflowTypeErrorMsg, none⟩, initStore 3600, 1, 0, 0⟩ ∧
    strHasSub "no capability" workflowTypeErrorMsg = false := by
  exact ⟨rfl, by decide⟩

/-- C3 (amended).  For every input for which the classifier returns a string
that is not registered in the capability registry (after the
`.strip().lower()` normalization), `run_workflow` terminates the turn with
`agent_used = none`, `output = null` and a non-null error — the generic
workflow rendering of the `TypeError` raised inside `_parse_intent`, not a
no-capability-matched message — and no handler is ever invoked. -/
theorem C3_amended_no_route (o : Oracles) (cs : ContextStore) (now : Int) (input : String)
    (sid? : Option String) (freshId : String) (w : String)
    (hw : o.classify 0 = .ok w)
    (hreg : registeredAgents.contains (pyLower (pyStrip w)) = false) :
    ∃ r : RunResult, run_workflow o cs now input sid? freshId = .ok r ∧
      r.envelope.agent_used = none ∧ r.envelope.output = none ∧
      r.envelope.error = some workflowTypeErrorMsg ∧ r.dispatchCount = 0 :=
  ⟨_, run_workflow_spec o cs now input sid? freshId, rfl, rfl, rfl, rfl⟩

/-- Witness for C3 (amended) at the classifier output `weather`. -/
theorem C3_amended_no_route_witness :
    ∃ r : RunResult,
      run_workflow weatherOracles (initStore 3600) 0 "what is the weather" (some "sess-w")
        "fresh-uuid" = .ok r ∧
      r.envelope.agent_used = none ∧ r.envelope.output = none ∧
      r.envelope.error = some workflowTypeErrorMsg ∧ r.dispatchCount = 0 :=
  C3_amended_no_route weatherOracles (initStore 3600) 0 "what is the weather" (some "sess-w")
    "fresh-uuid" "weather" rfl (by decide)

/-- C4.  The intent-routing step is claimed never to raise and to resolve
classifier failures to `none`; in fact `_parse_intent` raises on every single
call, whatever the classifier does: on the success path
`AgentState(**state.dict(), current_agent=...)` duplicates the keyword
`current_agent`, the resulting `TypeError` is caught by the `except` arm,
and the `except` arm itself evaluates `AgentState(**state.dict(), error=...)`
which duplicates the keyword `error`, so that second `TypeError` always
propagates out of the routing step. -/
theorem C4_parse_intent_always_raises (c : Except String String) (s : AgentState) :
    parse_intent c s = .error (.typeErrorMultipleValues "error") :=
  parse_intent_raises c s

/-- C5.  Envelope totality of the entry point: for every input, session
identifier, store state, and every behaviour of the classifier and handlers,
`run_workflow` returns a well-formed result (never an unhandled exception):
the `Except` value is always `.ok`, the envelope carries the given or
generated session identifier, and `error` is populated whenever the turn
could not complete (with the present code, on every call). -/
theorem C5_envelope_totality (o : Oracles) (cs : ContextStore) (now : Int) (input : String)
    (sid? : Option String) (freshId : String) :
    ∃ r : RunResult, run_workflow o cs now input sid? freshId = .ok r ∧
      r.envelope.session_id = sid?.getD freshId ∧ r.envelope.error.isSome ∧
      r.envelope.output = none :=
  ⟨_, run_workflow_spec o cs now input sid? freshId, rfl, rfl, rfl⟩

/-- C6.  Persistence side effects actually performed by `run_workflow`: every
call performs exactly one context-store `get_context` and zero
`store_context` calls — the persist step is unreachable because the workflow
invocation always raises inside `_parse_intent` before any handler can
produce a context mutation, and the exception arm of `run_workflow` performs
no write. -/
theorem C6_store_effects (o : Oracles) (cs : ContextStore) (now : Int) (input : String)
    (sid? : Option String) (freshId : String) :
    ∃ r : RunResult, run_workflow o cs now input sid? freshId = .ok r ∧
      r.getCount = 1 ∧ r.putCount = 0 :=
  ⟨_, run_workflow_spec o cs now input sid? freshId, rfl, rfl⟩

/-- C7.  Shallow context merge and history append: whenever an agent runner
node dispatches a handler that returns an envelope (and raises nothing), the
new turn context maps every top-level key of the returned fragment to the
fragment value — wholesale, with no deep merge — and every other key to its
previous value, and the history grows by exactly the one entry
`{agent, input, output}` appended at the end; the envelope is recorded as
`output` and the agent as `current_agent`. -/
theorem C7_shallow_merge_history (agentName errLabel : String) (env : HandlerEnvelope)
    (st : AgentState) (hnd : NodupKeys env.context) :
    ∃ s : AgentState, runAgentNode agentName errLabel (.ok env) st = .ok s ∧
      (∀ k : String, Assoc.lookup s.context k =
        match Assoc.lookup env.context k with
        | some v => some v
        | none => Assoc.lookup st.context k) ∧
      s.history = st.history ++ [⟨agentName, st.user_input, env.response⟩] ∧
      s.output = some env ∧ s.current_agent = some agentName ∧ s.error = none := by
  refine ⟨_, rfl, ?_, rfl, rfl, rfl, rfl⟩
  intro k
  exact lookup_Dict_update env.context st.context hnd k

/-- Witness for C7 on concrete data: the `github` namespace is replaced
wholesale (the nested key `stale` is gone, not deep-merged), the unrelated
top-level key `keep` is untouched, and exactly one history entry is
appended. -/
theorem C7_shallow_merge_history_witness :
    NodupKeys ghEnv.context ∧
    ∃ s : AgentState, runAgentNode "github" "GitHub agent error: " (.ok ghEnv) preState = .ok s ∧
      Assoc.lookup s.context "github" = some (.dict [("fresh", .num 2)]) ∧
      Assoc.lookup s.context "keep" = some (.num 7) ∧
      s.history = [⟨"github", "q", .str "done"⟩] := by
  have hnd : NodupKeys ghEnv.context := by
    show (List.map Prod.fst fragCtx).Nodup
    decide
  obtain ⟨s, h1, h2, h3, _, _, _⟩ :=
    C7_shallow_merge_history "github" "GitHub agent error: " ghEnv preState hnd
  exact ⟨hnd, s, h1, (h2 "github").trans rfl, (h2 "keep").trans rfl, h3.trans rfl⟩

/-- C8.  Store round-trip fidelity: after `store_context` writes a mapping
for a session at `t0`, and any sequence of operations follows that stays
inside a window shorter than the TTL and never puts, updates or deletes that
session, a `get_context` at the end of the window returns exactly the mapping
that was written. -/
theorem C8_roundtrip (cs : ContextStore) (sid : String) (ctx : Dict) (t0 t1 : Int)
    (ops : List StoreOp) (hnd : NodupKeys cs.memory_timestamps)
    (h01 : t0 ≤ t1) (hwin : t1 - t0 < cs.context_ttl)
    (hops : ∀ op ∈ ops, opSafe sid t0 t1 op) :
    ((runOps (cs.store_context t0 sid ctx).2 ops).get_context t1 sid).1 = some ctx := by
  have h0 : RTInv cs.context_ttl t0 t1 sid ctx (cs.store_context t0 sid ctx).2 :=
    rtInv_afterPut hnd hwin h01
  have h1 := rtInv_runOps hwin ops _ h0 hops
  exact roundtrip_get h1 hwin

/-- Witness for C8: a put of `demoCtx` at time 0 with TTL 100, followed by a
self read and puts, updates, deletes and a sweep on another session, still
round-trips exactly at time 50. -/
theorem C8_roundtrip_witness :
    ((runOps ((initStore 100).store_context 0 "alice" demoCtx).2 demoOps).get_context
      50 "alice").1 = some demoCtx :=
  C8_roundtrip (initStore 100) "alice" demoCtx 0 50 demoOps List.nodup_nil
    (by decide) (by decide) (by decide)

/-- C9.  Sliding TTL: (a) after a put at `t0`, any chain of `get_context`
calls whose consecutive gaps are at most the TTL all hit and return the
stored mapping — each access refreshes the expiry clock, so periodic access
keeps the session alive indefinitely; (b) a session untouched for more than
the TTL after its put misses at the next `get_context`, and — the entry
having been deleted — misses at every subsequent `get_context` at any time,
even though it was never explicitly deleted. -/
theorem C9_sliding_ttl (cs : ContextStore) (sid : String) (ctx : Dict) (t0 : Int)
    (hnd : NodupKeys cs.memory_timestamps) (httl : 0 ≤ cs.context_ttl) :
    (∀ times : List Int, List.Chain (fun a b => b - a ≤ cs.context_ttl) t0 times →
        (slidingGets (cs.store_context t0 sid ctx).2 sid times).1 =
          times.map (fun _ => some ctx)) ∧
    (∀ t1 : Int, cs.context_ttl < t1 - t0 →
        ((cs.store_context t0 sid ctx).2.get_context t1 sid).1 = none ∧
        ∀ t2 : Int,
          (((cs.store_context t0 sid ctx).2.get_context t1 sid).2.get_context t2 sid).1
            = none) := by
  obtain ⟨hstore, hts, httl2, hnd2⟩ := afterPut_state hnd httl
  constructor
  · intro times hchain
    refine sliding_alive times _ t0 hstore hts ?_
    rw [httl2]
    exact hchain
  · intro t1 hexp
    exact expiry_miss hnd httl (by omega)

/-- Witness for C9 with TTL 10: accesses at 9, 18 and 27 (gaps of 9 = 0.9 of
the TTL) all hit; an access at 11 after a put at 0 misses; after that miss an
access at 12 misses too. -/
theorem C9_sliding_ttl_witness :
    (slidingGets ((initStore 10).store_context 0 "sess" demoCtx).2 "sess" [9, 18, 27]).1 =
      [some demoCtx, some demoCtx, some demoCtx] ∧
    (((initStore 10).store_context 0 "sess" demoCtx).2.get_context 11 "sess").1 = none ∧
    ((((initStore 10).store_context 0 "sess" demoCtx).2.get_context 11 "sess").2.get_context
      12 "sess").1 = none := by
  have h := C9_sliding_ttl (initStore 10) "sess" demoCtx 0 List.nodup_nil (by decide)
  refine ⟨?_, (h.2 11 (by decide)).1, (h.2 11 (by decide)).2 12⟩
  have ha := h.1 [9, 18, 27]
    (List.Chain.cons (by decide) (List.Chain.cons (by decide)
      (List.Chain.cons (by decide) List.Chain.nil)))
  simpa using ha

/-- C10.  Implicit invariant of the in-memory store: starting from the state
`_init_memory_store` builds, after any sequence of `store_context`,
`get_context`, `update_context`, `delete_context` and `_clean_expired_sessions`
operations, `memory_store` and `memory_timestamps` hold exactly the same set
of session-identifier keys. -/
theorem C10_keys_aligned (ttl : Int) (ops : List StoreOp) :
    keysAligned (runOps (initStore ttl) ops) :=
  keysAligned_runOps ops _ (keysAligned_initStore ttl)
